import Mathlib

/-!
A shallow embedding of the proxy program (proxy.c): the doubly linked LRU
object cache, the sbuf hand-off queue, URI parsing, request-header
rewriting, the error reporter and the request handler `doit`.

Modelling conventions:
* C strings and byte buffers are `List Char` (C strings are NUL-free byte
  sequences; `Char` stands for one byte, which is exact for all the ASCII
  data the theorems inspect).
* C `int` is `Int` (no value in the program approaches 2^31).
* The doubly linked block list is represented head-first as
  `List CacheBlock`; the C `while`-loop that pops the tail is recursion
  over the reversed list.
* Semaphore operations are no-ops in this sequential model; the reader
  counter bookkeeping of `cache_find` is kept explicitly.
-/

set_option maxRecDepth 8000

/-! ### Global constants -/

def MAX_CACHE_SIZE : Int := 1049000

def MAX_OBJECT_SIZE : Int := 102400

def MAXLINE : Nat := 8192

def NTHREADS : Nat := 4

def SBUFSIZE : Nat := 16

/-! ### Cache data model -/

structure CacheBlock where
  uri : List Char
  content : List Char
  content_size : Int
deriving DecidableEq

structure CacheState where
  blocks : List CacheBlock
  current_size : Int
  readcnt : Int
deriving DecidableEq

def cache_init : CacheState := { blocks := [], current_size := 0, readcnt := 0 }

/-- The search loop of `cache_find`: walk from the head, first block whose
`uri` compares equal (`strcmp == 0`) wins. -/
def findBlock (u : List Char) : List CacheBlock → Option CacheBlock
  | [] => none
  | b :: bs => if b.uri = u then some b else findBlock u bs

/-- `cache_find`: reader entry (readcnt++), list walk, reader exit
(readcnt--); the list itself is never touched. -/
def cache_find (u : List Char) (s : CacheState) : CacheState × Option CacheBlock :=
  let s1 : CacheState := { s with readcnt := s.readcnt + 1 }
  let blk := findBlock u s1.blocks
  let s2 : CacheState := { s1 with readcnt := s1.readcnt - 1 }
  (s2, blk)

/-- The eviction `while`-loop of `cache_insert`, acting on the tail-first
(reversed) block list: while `current_size + content_size > MAX_CACHE_SIZE`
and a tail block exists, unlink the tail block and subtract its size. -/
def evictTailFirst (inc : Int) : List CacheBlock → Int → List CacheBlock × Int
  | [], cur => ([], cur)
  | t :: rest, cur =>
    if MAX_CACHE_SIZE < cur + inc then evictTailFirst inc rest (cur - t.content_size)
    else (t :: rest, cur)

/-- `cache_insert`: reject objects larger than `MAX_OBJECT_SIZE`, evict from
the tail until the new object fits, then link a fresh block at the head
(`memcpy` of `content_size` bytes) and add the size. -/
def cache_insert (u : List Char) (content : List Char) (content_size : Int)
    (s : CacheState) : CacheState :=
  if MAX_OBJECT_SIZE < content_size then s
  else
    let ev := evictTailFirst content_size s.blocks.reverse s.current_size
    let newBlock : CacheBlock :=
      { uri := u, content := content.take content_size.toNat, content_size := content_size }
    { s with blocks := newBlock :: ev.1.reverse, current_size := ev.2 + content_size }

/-- Sum of `content_size` over the live blocks. -/
def sumSizes (l : List CacheBlock) : Int := (l.map CacheBlock.content_size).sum

/-- Run a sequence of `cache_insert` calls (uri, content, content_size). -/
def applyInserts (ops : List (List Char × List Char × Int)) (s : CacheState) : CacheState :=
  ops.foldl (fun st op => cache_insert op.1 op.2.1 op.2.2 st) s

/-! ### The sbuf hand-off queue -/

structure SbufState where
  buf : List Int
  n : Nat
  front : Nat
  rear : Nat
deriving DecidableEq

/-- `sbuf_init`: `Calloc` zeroes the slot array; `front = rear = 0`. -/
def sbuf_init (n : Nat) : SbufState :=
  { buf := List.replicate n 0, n := n, front := 0, rear := 0 }

/-- `sbuf_insert`: store into slot `(++rear) % n`. -/
def sbuf_insert (item : Int) (s : SbufState) : SbufState :=
  { s with rear := s.rear + 1, buf := s.buf.set ((s.rear + 1) % s.n) item }

/-- `sbuf_remove`: read slot `(++front) % n`. -/
def sbuf_remove (s : SbufState) : SbufState × Int :=
  ({ s with front := s.front + 1 }, s.buf.getD ((s.front + 1) % s.n) 0)

def insertAll (xs : List Int) (s : SbufState) : SbufState :=
  xs.foldl (fun st x => sbuf_insert x st) s

def removeN : Nat → SbufState → SbufState × List Int
  | 0, s => (s, [])
  | k + 1, s =>
    let r := sbuf_remove s
    let rest := removeN k r.1
    (rest.1, r.2 :: rest.2)

/-! ### String helpers (sscanf tokens, strcasecmp, strncasecmp, strstr, atoi) -/

/-- C `isspace` in the default locale. -/
def isSpaceB (c : Char) : Bool :=
  c = ' ' || c = '\t' || c = '\n' || c = '\x0b' || c = '\x0c' || c = '\r'

def tokenizeAux : List Char → List Char → List (List Char)
  | [], cur => if cur = [] then [] else [cur.reverse]
  | c :: rest, cur =>
    if isSpaceB c then
      if cur = [] then tokenizeAux rest [] else cur.reverse :: tokenizeAux rest []
    else tokenizeAux rest (c :: cur)

/-- The tokens `sscanf(buf, "%s %s %s", ...)` assigns in order. -/
def tokenize (l : List Char) : List (List Char) := tokenizeAux l []

/-- `strcasecmp(a, b) == 0`. -/
def strcaseEq (a b : List Char) : Bool :=
  a.map Char.toLower == b.map Char.toLower

/-- `strncasecmp(l, pre, pre.length) == 0` for a NUL-free `l`: `l` must be
at least as long as `pre` and agree with it case-insensitively. -/
def startsWithCI (pre l : List Char) : Bool :=
  decide (pre.length ≤ l.length) && ((l.take pre.length).map Char.toLower == pre.map Char.toLower)

/-- Index of the first occurrence of `c` (`strstr` with a one-char needle,
i.e. `strchr`), `none` when absent. -/
def strchrIdx (c : Char) : List Char → Option Nat
  | [] => none
  | x :: xs => if x = c then some 0 else (strchrIdx c xs).map (· + 1)

def atoiLoop : List Char → Int → Int
  | [], acc => acc
  | c :: rest, acc =>
    if c.isDigit then atoiLoop rest (acc * 10 + ((c.toNat : Int) - 48)) else acc

/-- C `atoi`: skip whitespace, optional sign, then leading digits (0 when
there are none). -/
def atoi (l : List Char) : Int :=
  match l.dropWhile isSpaceB with
  | '-' :: rest => - atoiLoop rest 0
  | '+' :: rest => atoiLoop rest 0
  | l1 => atoiLoop l1 0

/-! ### parse_uri -/

/-- `parse_uri` from the source: strip an optional case-insensitive
`http://`, then look for the FIRST `:` anywhere in the remainder (this is
`strstr(hostbegin, ":")`, not limited to before the first `/`); hostname is
everything before it and port is `atoi` of everything after it. With no
`:`, hostname runs to the first `/` (whole remainder and early return when
there is no `/`) and the port is 80.  The path is the suffix starting at
the first `/`, or `"/"` when there is none. -/
def parse_uri (uri : List Char) : List Char × List Char × Int :=
  let hostbegin := if startsWithCI (("http://").toList) uri then uri.drop 7 else uri
  match strchrIdx ':' hostbegin with
  | some i =>
    let hostname := hostbegin.take i
    let port := atoi (hostbegin.drop (i + 1))
    let pathname :=
      match strchrIdx '/' hostbegin with
      | some j => hostbegin.drop j
      | none => [ '/' ]
    (hostname, pathname, port)
  | none =>
    match strchrIdx '/' hostbegin with
    | none => (hostbegin, [ '/' ], 80)
    | some j => (hostbegin.take j, hostbegin.drop j, 80)

/-- The amended specification of `parse_uri`, written from its words:
after stripping an optional case-insensitive `http://` prefix, if a `:`
appears anywhere in the remainder then hostname is the substring before
the first `:` and port is `atoi` of the text after it; otherwise hostname
is the substring up to the first `/` (or the whole remainder if there is
no `/`) and port is 80; path is the substring starting at the first `/`,
or `"/"` if there is none. -/
def parse_uri_spec (uri : List Char) : List Char × List Char × Int :=
  let rem := if startsWithCI (("http://").toList) uri then uri.drop 7 else uri
  let hostname :=
    if rem.any (fun c => c == ':') then rem.takeWhile (fun c => c != ':')
    else rem.takeWhile (fun c => c != '/')
  let port : Int :=
    if rem.any (fun c => c == ':') then atoi ((rem.dropWhile (fun c => c != ':')).drop 1)
    else 80
  let path :=
    if rem.any (fun c => c == '/') then rem.dropWhile (fun c => c != '/')
    else [ '/' ]
  (hostname, path, port)

/-! ### Error reporter, header rewrite, streaming loop, and doit -/

/-- Bytes of the second through seventh `sprintf`/`Rio_writen` pairs of
`clienterror` (everything after the status line; the C adjacent literals
`"<body bgcolor=" "ffffff" ">"` concatenate to `<body bgcolor=ffffff>`). -/
def clienterror_body (cause errnum shortmsg longmsg : List Char) : List Char :=
  ("Content-type: text/html\r\n\r\n").toList
    ++ ("<html><title>프록시 에러</title>").toList
    ++ ("<body bgcolor=ffffff>\r\n").toList
    ++ errnum ++ [ ':' , ' ' ] ++ shortmsg ++ ("\r\n").toList
    ++ ("<p>").toList ++ longmsg ++ [ ':' , ' ' ] ++ cause ++ ("\r\n").toList
    ++ ("<hr><em>프록시 서버</em>\r\n").toList

/-- The byte sequence `clienterror` writes: the status line
`HTTP/1.0 errnum shortmsg` followed by the HTML body. -/
def clienterror (cause errnum shortmsg longmsg : List Char) : List Char :=
  (("HTTP/1.0 ").toList ++ errnum ++ [ ' ' ] ++ shortmsg ++ ("\r\n").toList)
    ++ clienterror_body cause errnum shortmsg longmsg

/-- The header-collection loop of `build_requesthdrs`: stop at the blank
line, remember the last `Host:` header, drop `User-Agent:`,
`Connection:` and `Proxy-Connection:`, forward everything else in order.
Arguments: remaining client header lines, forwarded-so-far, host header
seen so far. -/
def collectHdrs : List (List Char) → List Char → List Char → List Char × List Char
  | [], fwd, hostH => (fwd, hostH)
  | buf :: rest, fwd, hostH =>
    if buf = ("\r\n").toList then (fwd, hostH)
    else if startsWithCI (("Host:").toList) buf then collectHdrs rest fwd buf
    else if startsWithCI (("User-Agent:").toList) buf
        || startsWithCI (("Connection:").toList) buf
        || startsWithCI (("Proxy-Connection:").toList) buf then collectHdrs rest fwd hostH
    else collectHdrs rest (fwd ++ buf) hostH

def user_agent_hdr : List Char :=
  ("User-Agent: Mozilla/5.0 (X11; Linux x86_64; rv:10.0.3) Gecko/20120305 Firefox/10.0.3\r\n").toList

/-- `build_requesthdrs`: the rewritten origin request. -/
def build_requesthdrs (clientHdrs : List (List Char)) (hostname pathname : List Char) : List Char :=
  let col := collectHdrs clientHdrs [] []
  let hostH := if col.2 = [] then ("Host: ").toList ++ hostname ++ ("\r\n").toList else col.2
  ("GET ").toList ++ pathname ++ (" HTTP/1.0\r\n").toList ++ col.1 ++ hostH
    ++ user_agent_hdr ++ ("Connection: close\r\n").toList
    ++ ("Proxy-Connection: close\r\n\r\n").toList

/-- The stream-and-stage loop of `doit`: every origin line is written to
the client; a line is appended to the staging buffer exactly when
`cache_size + n <= MAX_OBJECT_SIZE` still holds (`cache_size` is the
length of the staging buffer).  Arguments: remaining lines, bytes written
so far, staging buffer so far. -/
def streamLoopAux : List (List Char) → List Char → List Char → List Char × List Char
  | [], out, staged => (out, staged)
  | line :: rest, out, staged =>
    if (staged.length : Int) + (line.length : Int) ≤ MAX_OBJECT_SIZE then
      streamLoopAux rest (out ++ line) (staged ++ line)
    else streamLoopAux rest (out ++ line) staged

/-- Run the stream-and-stage loop from the start: returns (bytes written
to the client, final staging buffer). -/
def streamLoop (lines : List (List Char)) : List Char × List Char :=
  streamLoopAux lines [] []

/-- The environment a connection sees on the origin side: whether
`Open_clientfd` succeeds, and the successive non-empty `Rio_readlineb`
results until EOF. -/
structure Origin where
  connectOk : Bool
  lines : List (List Char)

/-- Observable outcome of one `doit` invocation. -/
structure DoitResult where
  clientOut : List Char
  cacheProbed : Bool
  originAttempted : Bool
  serverOut : List Char
  cacheAfter : CacheState

/-- The request handler `doit`, as a function of the cache state, the
request line, the client header lines, and the origin behaviour. -/
def doit (s : CacheState) (requestLine : List Char) (clientHdrs : List (List Char))
    (origin : Origin) : DoitResult :=
  let toks := tokenize requestLine
  let method := toks.getD 0 []
  let uri := toks.getD 1 []
  if strcaseEq method (("GET").toList) then
    let probe := cache_find uri s
    match probe.2 with
    | some blk =>
      { clientOut := blk.content.take blk.content_size.toNat,
        cacheProbed := true, originAttempted := false, serverOut := [],
        cacheAfter := probe.1 }
    | none =>
      let parsed := parse_uri uri
      if origin.connectOk then
        let newreq := build_requesthdrs clientHdrs parsed.1 parsed.2.1
        let streamed := streamLoop origin.lines
        let cacheAfter :=
          if (streamed.2.length : Int) ≤ MAX_OBJECT_SIZE then
            cache_insert uri streamed.2 (streamed.2.length : Int) probe.1
          else probe.1
        { clientOut := streamed.1, cacheProbed := true, originAttempted := true,
          serverOut := newreq, cacheAfter := cacheAfter }
      else
        { clientOut := clienterror parsed.1 (("503").toList) (("Service Unavailable").toList)
            (("서버 연결 실패").toList),
          cacheProbed := true, originAttempted := true, serverOut := [],
          cacheAfter := probe.1 }
  else
    { clientOut := clienterror method (("501").toList) (("Not Implemented").toList)
        (("지원하지 않는 메소드입니다").toList),
      cacheProbed := false, originAttempted := false, serverOut := [], cacheAfter := s }

/-- First line of the 501 error page. -/
def http501head : List Char := ("HTTP/1.0 501 Not Implemented\r\n").toList

/-- The basic accounting invariant of the cache: `current_size` is the sum
of the live block sizes, and that sum is within the byte budget. -/
def CacheInv (s : CacheState) : Prop :=
  s.current_size = sumSizes s.blocks ∧ sumSizes s.blocks ≤ MAX_CACHE_SIZE

/-- Abstraction relation for the sbuf ring: the state `s` holds exactly the
queue `q`, its pending items sitting in slots `(front + 1 + i) % SBUFSIZE`. -/
def SbufModels (s : SbufState) (q : List Int) : Prop :=
  s.n = SBUFSIZE ∧ s.buf.length = SBUFSIZE ∧ s.rear = s.front + q.length ∧
    q.length ≤ SBUFSIZE ∧
    ∀ i, (h : i < q.length) → s.buf.getD ((s.front + 1 + i) % SBUFSIZE) 0 = q.get ⟨i, h⟩

/-! ### Helper lemmas: cache -/

theorem cache_find_fst (u : List Char) (s : CacheState) : (cache_find u s).1 = s := by
  cases s
  simp [cache_find]

theorem cache_find_snd (u : List Char) (s : CacheState) :
    (cache_find u s).2 = findBlock u s.blocks := rfl

theorem findBlock_eq_none_iff (u : List Char) (l : List CacheBlock) :
    findBlock u l = none ↔ ∀ b ∈ l, b.uri ≠ u := by
  induction l with
  | nil => simp [findBlock]
  | cons b bs ih =>
    by_cases h : b.uri = u
    · simp [findBlock, h]
    · simp [findBlock, h, ih]

theorem sumSizes_nil : sumSizes [] = 0 := rfl

theorem sumSizes_cons (b : CacheBlock) (l : List CacheBlock) :
    sumSizes (b :: l) = b.content_size + sumSizes l := by
  simp [sumSizes]

theorem sumSizes_reverse (l : List CacheBlock) : sumSizes l.reverse = sumSizes l := by
  simp [sumSizes, List.map_reverse, List.sum_reverse]

theorem evictTailFirst_sublist (inc : Int) (l : List CacheBlock) (cur : Int) :
    (evictTailFirst inc l cur).1.Sublist l := by
  induction l generalizing cur with
  | nil => simp [evictTailFirst]
  | cons t rest ih =>
    simp only [evictTailFirst]
    split
    · exact (ih _).trans (List.sublist_cons_self t rest)
    · exact List.Sublist.refl _

theorem evictTailFirst_sum (inc : Int) (l : List CacheBlock) (cur : Int)
    (h : cur = sumSizes l) :
    (evictTailFirst inc l cur).2 = sumSizes (evictTailFirst inc l cur).1 ∧
      ((evictTailFirst inc l cur).2 + inc ≤ MAX_CACHE_SIZE ∨
        (evictTailFirst inc l cur).1 = []) := by
  induction l generalizing cur with
  | nil =>
    simp only [evictTailFirst]
    exact ⟨h, Or.inr (by trivial)⟩
  | cons t rest ih =>
    simp only [evictTailFirst]
    split
    · apply ih
      rw [h, sumSizes_cons]
      ring
    · rename_i hcond
      refine ⟨h, Or.inl ?_⟩
      omega

theorem cache_insert_inv (u content : List Char) (n : Int) (s : CacheState)
    (h : CacheInv s) : CacheInv (cache_insert u content n s) := by
  unfold cache_insert
  split
  · exact h
  · rename_i hbig
    obtain ⟨h1, h2⟩ := h
    have hrev : s.current_size = sumSizes s.blocks.reverse := by
      rw [h1, sumSizes_reverse]
    obtain ⟨hs, hd⟩ := evictTailFirst_sum n s.blocks.reverse s.current_size hrev
    have hz : sumSizes ((evictTailFirst n s.blocks.reverse s.current_size).1.reverse) =
        (evictTailFirst n s.blocks.reverse s.current_size).2 := by
      rw [sumSizes_reverse, ← hs]
    constructor
    · simp only [sumSizes_cons, hz]
      ring
    · simp only [sumSizes_cons, hz]
      rcases hd with hle | hnil
      · omega
      · have hzz : (evictTailFirst n s.blocks.reverse s.current_size).2 = 0 := by
          rw [hs, hnil, sumSizes_nil]
        have hm : MAX_OBJECT_SIZE ≤ MAX_CACHE_SIZE := by decide
        omega

theorem applyInserts_inv (ops : List (List Char × List Char × Int)) (s : CacheState)
    (h : CacheInv s) : CacheInv (applyInserts ops s) := by
  induction ops generalizing s with
  | nil => exact h
  | cons op rest ih => exact ih _ (cache_insert_inv _ _ _ _ h)

theorem cache_find_after_insert (s : CacheState) (u B : List Char) (n : Int)
    (h : ¬ MAX_OBJECT_SIZE < n) :
    (cache_find u (cache_insert u B n s)).2 =
      some { uri := u, content := B.take n.toNat, content_size := n } := by
  unfold cache_insert
  rw [if_neg h]
  simp [cache_find, findBlock]

/-! ### Claim theorems: cache -/

/-- Claim C8 (confirmed): for every cache state and uri, `cache_find`
leaves the whole cache state unchanged -- the block list (hence head, tail
and every link, uri, content and content_size), `current_size`, and, the
transient increment and decrement having cancelled, even the reader
count; a hit does not
move the found entry to the head. -/
theorem cache_find_state_unchanged (u : List Char) (s : CacheState) :
    (cache_find u s).1 = s ∧ (cache_find u s).1.blocks = s.blocks ∧
      (cache_find u s).1.current_size = s.current_size := by
  refine ⟨cache_find_fst u s, ?_, ?_⟩ <;> rw [cache_find_fst u s]

/-- Claim C4 (confirmed): after any sequence of `cache_insert` calls
starting from the initialized empty cache, the sum of `content_size` over
the live entries is at most `MAX_CACHE_SIZE`. -/
theorem cache_total_size_bounded (ops : List (List Char × List Char × Int)) :
    sumSizes (applyInserts ops cache_init).blocks ≤ MAX_CACHE_SIZE :=
  (applyInserts_inv ops cache_init ⟨rfl, by decide⟩).2

/-- Claim C5 (confirmed): immediately after `cache_insert u B n` with
`n ≤ MAX_OBJECT_SIZE`, `cache_find u` returns the freshly inserted head
entry, whose body is exactly the `n` bytes of `B` -- whatever older entry
with the same uri may still be live. -/
theorem cache_insert_then_find (s : CacheState) (u B : List Char) (n : Int)
    (h : n ≤ MAX_OBJECT_SIZE) :
    (cache_find u (cache_insert u B n s)).2 =
      some { uri := u, content := B.take n.toNat, content_size := n } :=
  cache_find_after_insert s u B n (by omega)

/-- Witness for C5 at a concrete input. -/
theorem cache_insert_then_find_witness :
    (2 : Int) ≤ MAX_OBJECT_SIZE ∧
      (cache_find (("u").toList) (cache_insert (("u").toList) (("hi").toList) 2 cache_init)).2 =
        some { uri := ("u").toList, content := ("hi").toList, content_size := 2 } :=
  ⟨by decide, cache_insert_then_find cache_init (("u").toList) (("hi").toList) 2 (by decide)⟩

/-- Claim C6 (confirmed): `cache_insert` with `len > MAX_OBJECT_SIZE`
leaves the entire cache state unchanged, and a uri that missed before
still misses afterwards. -/
theorem cache_insert_oversize_noop (s : CacheState) (u B : List Char) (n : Int)
    (h : MAX_OBJECT_SIZE < n) :
    cache_insert u B n s = s ∧
      ((cache_find u s).2 = none → (cache_find u (cache_insert u B n s)).2 = none) := by
  have h1 : cache_insert u B n s = s := by
    unfold cache_insert
    rw [if_pos h]
  exact ⟨h1, fun hm => by rw [h1]; exact hm⟩

/-- Witness for C6 at `MAX_OBJECT_SIZE + 1 = 102401`. -/
theorem cache_insert_oversize_noop_witness :
    MAX_OBJECT_SIZE < (102401 : Int) ∧
      cache_insert (("u").toList) (("a").toList) 102401 cache_init = cache_init ∧
      (cache_find (("u").toList)
        (cache_insert (("u").toList) (("a").toList) 102401 cache_init)).2 = none := by
  have h := cache_insert_oversize_noop cache_init (("u").toList) (("a").toList) 102401 (by decide)
  exact ⟨by decide, h.1, h.2 (by decide)⟩

/-- Claim C2 counterexample: inserting the same uri twice from the empty
cache (a state reachable by two `cache_insert` calls from `cache_init`)
yields two live entries with equal uri, so the no-duplicate-key invariant
fails. -/
theorem cache_duplicate_uri_cex :
    ¬ (((applyInserts
          [((("u").toList), (("a").toList), 1), ((("u").toList), (("a").toList), 1)]
          cache_init).blocks.map CacheBlock.uri).Nodup) := by
  decide

/-- Claim C2 as amended (proved): `cache_find` never changes the state,
and a `cache_insert` whose uri is not currently live preserves the
no-duplicate-key invariant; only a second insert of an already-cached uri
violates it. -/
theorem cache_insert_fresh_uri_preserves_nodup (s : CacheState) (u B : List Char) (n : Int)
    (hnd : (s.blocks.map CacheBlock.uri).Nodup)
    (hmiss : (cache_find u s).2 = none) :
    ((cache_insert u B n s).blocks.map CacheBlock.uri).Nodup := by
  rw [cache_find_snd] at hmiss
  have hnone : ∀ b ∈ s.blocks, b.uri ≠ u := (findBlock_eq_none_iff u s.blocks).mp hmiss
  unfold cache_insert
  split
  · exact hnd
  · have hsub : (evictTailFirst n s.blocks.reverse s.current_size).1.reverse.Sublist s.blocks := by
      have h1 := (evictTailFirst_sublist n s.blocks.reverse s.current_size).reverse
      rwa [List.reverse_reverse] at h1
    simp only [List.map_cons, List.nodup_cons]
    constructor
    · intro hmem
      obtain ⟨b, hb, hbu⟩ := List.mem_map.mp hmem
      exact hnone b (hsub.subset hb) hbu
    · exact hnd.sublist (hsub.map CacheBlock.uri)

/-- Witness for the amended C2 at a concrete input. -/
theorem cache_insert_fresh_uri_preserves_nodup_witness :
    ((cache_init.blocks.map CacheBlock.uri).Nodup) ∧
      (cache_find (("u").toList) cache_init).2 = none ∧
      (((cache_insert (("u").toList) (("a").toList) 1 cache_init).blocks.map
          CacheBlock.uri).Nodup) :=
  ⟨by decide, by decide,
    cache_insert_fresh_uri_preserves_nodup cache_init (("u").toList) (("a").toList) 1
      (by decide) (by decide)⟩

/-! ### Helper lemmas: strchrIdx vs takeWhile/dropWhile/any -/

theorem strchrIdx_none_iff (c : Char) (l : List Char) :
    strchrIdx c l = none ↔ l.any (fun x => x == c) = false := by
  induction l with
  | nil => simp [strchrIdx]
  | cons x xs ih =>
    by_cases h : x = c
    · simp [strchrIdx, h]
    · simp [strchrIdx, h, ih]

theorem any_of_strchrIdx_some (c : Char) (l : List Char) (i : Nat)
    (h : strchrIdx c l = some i) : l.any (fun x => x == c) = true := by
  cases hany : l.any (fun x => x == c)
  · rw [(strchrIdx_none_iff c l).mpr hany] at h
    cases h
  · rfl

theorem strchrIdx_take (c : Char) (l : List Char) (i : Nat)
    (h : strchrIdx c l = some i) :
    l.take i = l.takeWhile (fun x => x != c) := by
  induction l generalizing i with
  | nil => simp [strchrIdx] at h
  | cons x xs ih =>
    by_cases hx : x = c
    · simp only [strchrIdx, if_pos hx, Option.some.injEq] at h
      subst h
      simp [List.takeWhile_cons, hx]
    · simp only [strchrIdx, if_neg hx, Option.map_eq_some'] at h
      obtain ⟨j, hj, hji⟩ := h
      subst hji
      simp [List.takeWhile_cons, hx, ih j hj]

theorem strchrIdx_drop (c : Char) (l : List Char) (i : Nat)
    (h : strchrIdx c l = some i) :
    l.drop i = l.dropWhile (fun x => x != c) := by
  induction l generalizing i with
  | nil => simp [strchrIdx] at h
  | cons x xs ih =>
    by_cases hx : x = c
    · simp only [strchrIdx, if_pos hx, Option.some.injEq] at h
      subst h
      simp [List.dropWhile_cons, hx]
    · simp only [strchrIdx, if_neg hx, Option.map_eq_some'] at h
      obtain ⟨j, hj, hji⟩ := h
      subst hji
      simp [List.dropWhile_cons, hx, ih j hj]

theorem takeWhile_ne_of_no_hit (c : Char) (l : List Char)
    (h : l.any (fun x => x == c) = false) :
    l.takeWhile (fun x => x != c) = l := by
  induction l with
  | nil => rfl
  | cons x xs ih =>
    simp only [List.any_cons, Bool.or_eq_false_iff, beq_eq_false_iff_ne] at h
    simp [List.takeWhile_cons, h.1, ih h.2]

/-! ### Claim theorems: parse_uri -/

/-- Claim C3 counterexample: on `http://h/a:b`, whose only `:` occurs
after the first `/`, `parse_uri` does NOT yield hostname `h`, path
`/a:b`, port 80 (it yields hostname `h/a` and port 0, because the code
searches for `:` anywhere in the remainder). -/
theorem parse_uri_claim_cex :
    ¬ (parse_uri (("http://h/a:b").toList) =
        ((("h").toList), (("/a:b").toList), (80 : Int))) := by
  decide

/-- Claim C3 as amended (proved): `parse_uri` behaves as follows. After
stripping an optional case-insensitive `http://` prefix, if a `:` appears
ANYWHERE in the remainder then hostname is the substring before the first
`:` and port is `atoi` of the text after it (0 when no digits follow);
otherwise hostname is the substring up to the first `/` (or the whole
remainder if there is no `/`) and port is 80; path is the substring
starting at the first `/`, or `"/"` if there is none.  In particular
`http://h/a:b` yields hostname `h/a`, port 0, path `/a:b`. -/
theorem parse_uri_eq_spec (uri : List Char) : parse_uri uri = parse_uri_spec uri := by
  unfold parse_uri parse_uri_spec
  set rem := if startsWithCI (("http://").toList) uri then uri.drop 7 else uri with hrem
  cases hc : strchrIdx ':' rem with
  | none =>
    have hanyc : rem.any (fun x => x == ':') = false := (strchrIdx_none_iff _ _).mp hc
    cases hs : strchrIdx '/' rem with
    | none =>
      have hanys : rem.any (fun x => x == '/') = false := (strchrIdx_none_iff _ _).mp hs
      simp [hc, hs, hanyc, hanys, takeWhile_ne_of_no_hit '/' rem hanys]
    | some j =>
      have hanys : rem.any (fun x => x == '/') = true := any_of_strchrIdx_some _ _ _ hs
      simp [hc, hs, hanyc, hanys, strchrIdx_take '/' rem j hs, strchrIdx_drop '/' rem j hs]
  | some i =>
    have hanyc : rem.any (fun x => x == ':') = true := any_of_strchrIdx_some _ _ _ hc
    have hdrop : rem.drop (i + 1) = (rem.dropWhile (fun x => x != ':')).drop 1 := by
      rw [← strchrIdx_drop ':' rem i hc, List.drop_drop]
    cases hs : strchrIdx '/' rem with
    | none =>
      have hanys : rem.any (fun x => x == '/') = false := (strchrIdx_none_iff _ _).mp hs
      simp [hc, hs, hanyc, hanys, strchrIdx_take ':' rem i hc, hdrop]
    | some j =>
      have hanys : rem.any (fun x => x == '/') = true := any_of_strchrIdx_some _ _ _ hs
      simp [hc, hs, hanyc, hanys, strchrIdx_take ':' rem i hc, hdrop,
        strchrIdx_drop '/' rem j hs]

/-! ### Helper lemmas: sbuf -/

theorem mod16_add_ne (a d : Nat) (h1 : 0 < d) (h2 : d < SBUFSIZE) :
    (a + d) % SBUFSIZE ≠ a % SBUFSIZE := by
  intro heq
  have h3 : SBUFSIZE ∣ a + d - a :=
    (Nat.modEq_iff_dvd' (Nat.le_add_right a d)).mp heq.symm
  rw [Nat.add_sub_cancel_left] at h3
  have := Nat.le_of_dvd h1 h3
  omega

theorem sbuf_insert_models (s : SbufState) (q : List Int) (x : Int)
    (hm : SbufModels s q) (hroom : q.length + 1 ≤ SBUFSIZE) :
    SbufModels (sbuf_insert x s) (q ++ [x]) := by
  obtain ⟨hn, hlen, hrear, hql, hslots⟩ := hm
  refine ⟨hn, ?_, ?_, ?_, ?_⟩
  · simp [sbuf_insert, List.length_set, hlen]
  · simp [sbuf_insert, hrear]
    omega
  · simp
    omega
  · intro i hi
    simp only [List.length_append, List.length_cons, List.length_nil] at hi
    simp only [sbuf_insert, hn]
    by_cases hiq : i = q.length
    · subst hiq
      have hidx : (s.front + 1 + q.length) % SBUFSIZE = (s.rear + 1) % SBUFSIZE := by
        rw [hrear]
        ring_nf
      rw [hidx]
      have hbnd : (s.rear + 1) % SBUFSIZE < s.buf.length := by
        rw [hlen]
        exact Nat.mod_lt _ (by decide)
      rw [List.getD_eq_getElem?_getD, List.getElem?_set_self hbnd]
      simp [List.get_eq_getElem, List.getElem_append_right]
    · have hilt : i < q.length := by omega
      have hne : (s.rear + 1) % SBUFSIZE ≠ (s.front + 1 + i) % SBUFSIZE := by
        have hd : s.rear + 1 = (s.front + 1 + i) + (q.length - i) := by omega
        rw [hd]
        exact mod16_add_ne _ _ (by omega) (by omega)
      rw [List.getD_eq_getElem?_getD, List.getElem?_set_ne hne,
        ← List.getD_eq_getElem?_getD _ _ 0, hslots i hilt]
      have : (q ++ [x]).get ⟨i, by simp; omega⟩ = q.get ⟨i, hilt⟩ :=
        List.getElem_append_left hilt
      rw [this]

theorem sbuf_remove_models (s : SbufState) (q : List Int) (x : Int)
    (hm : SbufModels s (x :: q)) :
    (sbuf_remove s).2 = x ∧ SbufModels (sbuf_remove s).1 q := by
  obtain ⟨hn, hlen, hrear, hql, hslots⟩ := hm
  constructor
  · have h0 := hslots 0 (by simp)
    simpa [sbuf_remove, hn] using h0
  · refine ⟨hn, hlen, ?_, ?_, ?_⟩
    · simp only [sbuf_remove, List.length_cons] at hrear ⊢
      omega
    · simp only [List.length_cons] at hql
      omega
    · intro i hi
      have hi1 : i + 1 < (x :: q).length := by simp; omega
      have := hslots (i + 1) hi1
      simp only [sbuf_remove, hn]
      have hidx : s.front + 1 + 1 + i = s.front + 1 + (i + 1) := by omega
      rw [hidx, this]
      simp [List.get_eq_getElem]

theorem insertAll_models (xs : List Int) (s : SbufState) (q : List Int)
    (hm : SbufModels s q) (hroom : q.length + xs.length ≤ SBUFSIZE) :
    SbufModels (insertAll xs s) (q ++ xs) := by
  induction xs generalizing s q with
  | nil => simpa using hm
  | cons x rest ih =>
    have h1 := sbuf_insert_models s q x hm (by simp at hroom; omega)
    have h2 := ih (sbuf_insert x s) (q ++ [x]) h1 (by simp at hroom ⊢; omega)
    simpa [insertAll] using h2

theorem removeN_models (q : List Int) (s : SbufState) (hm : SbufModels s q) :
    (removeN q.length s).2 = q := by
  induction q generalizing s with
  | nil => rfl
  | cons x rest ih =>
    obtain ⟨hx, hm2⟩ := sbuf_remove_models s rest x hm
    simp only [List.length_cons, removeN]
    rw [hx, ih (sbuf_remove s).1 hm2]

theorem sbuf_init_models : SbufModels (sbuf_init SBUFSIZE) [] := by
  refine ⟨rfl, by simp [sbuf_init], rfl, by simp, ?_⟩
  intro i hi
  simp at hi

/-! ### Claim theorem: sbuf FIFO -/

/-- Claim C9 (confirmed): for any sequence of at most `SBUFSIZE` values,
inserting them all into the freshly initialized buffer and then removing
the same number of items returns exactly the inserted values in insertion
order -- nothing dropped, duplicated or reordered. -/
theorem sbuf_fifo (xs : List Int) (h : xs.length ≤ SBUFSIZE) :
    (removeN xs.length (insertAll xs (sbuf_init SBUFSIZE))).2 = xs := by
  have hm := insertAll_models xs (sbuf_init SBUFSIZE) [] sbuf_init_models (by simpa using h)
  simpa using removeN_models xs (insertAll xs (sbuf_init SBUFSIZE)) (by simpa using hm)

/-- Witness for C9 at a concrete input. -/
theorem sbuf_fifo_witness :
    ([5, 7, 9] : List Int).length ≤ SBUFSIZE ∧
      (removeN ([5, 7, 9] : List Int).length
        (insertAll ([5, 7, 9] : List Int) (sbuf_init SBUFSIZE))).2 = [5, 7, 9] :=
  ⟨by decide, sbuf_fifo [5, 7, 9] (by decide)⟩

/-! ### Helper lemmas: streamLoop, clienterror, doit reductions -/

theorem streamLoopAux_fst (lines : List (List Char)) (out staged : List Char) :
    (streamLoopAux lines out staged).1 = out ++ lines.flatten := by
  induction lines generalizing out staged with
  | nil => simp [streamLoopAux]
  | cons line rest ih =>
    simp only [streamLoopAux]
    split <;> simp [ih, List.append_assoc]

theorem streamLoop_fst (lines : List (List Char)) : (streamLoop lines).1 = lines.flatten := by
  simpa using streamLoopAux_fst lines [] []

theorem streamLoopAux_snd_le (lines : List (List Char)) (out staged : List Char)
    (h : (staged.length : Int) ≤ MAX_OBJECT_SIZE) :
    ((streamLoopAux lines out staged).2.length : Int) ≤ MAX_OBJECT_SIZE := by
  induction lines generalizing out staged with
  | nil => simpa [streamLoopAux] using h
  | cons line rest ih =>
    simp only [streamLoopAux]
    split
    · rename_i hc
      apply ih
      push_cast [List.length_append]
      omega
    · exact ih _ _ h

theorem streamLoop_snd_le (lines : List (List Char)) :
    ((streamLoop lines).2.length : Int) ≤ MAX_OBJECT_SIZE := by
  apply streamLoopAux_snd_le
  simp [MAX_OBJECT_SIZE]

theorem clienterror_head_eq (cause errnum shortmsg longmsg : List Char) :
    (clienterror cause errnum shortmsg longmsg).take
        (("HTTP/1.0 ").toList ++ errnum ++ [ ' ' ] ++ shortmsg ++ ("\r\n").toList).length =
      ("HTTP/1.0 ").toList ++ errnum ++ [ ' ' ] ++ shortmsg ++ ("\r\n").toList := by
  unfold clienterror
  exact List.take_left _ _

theorem doit_501_eq (s : CacheState) (requestLine m : List Char)
    (toksRest : List (List Char)) (hdrs : List (List Char)) (origin : Origin)
    (htok : tokenize requestLine = m :: toksRest)
    (hne : strcaseEq m (("GET").toList) = false) :
    doit s requestLine hdrs origin =
      { clientOut := clienterror m (("501").toList) (("Not Implemented").toList)
          (("지원하지 않는 메소드입니다").toList),
        cacheProbed := false, originAttempted := false, serverOut := [], cacheAfter := s } := by
  have hne' : strcaseEq m ([ 'G' , 'E' , 'T' ]) = false := by simpa using hne
  unfold doit
  rw [htok]
  simp [hne, hne']

theorem doit_miss_eq (s : CacheState) (requestLine m u v : List Char)
    (hdrs : List (List Char)) (origin : Origin)
    (htok : tokenize requestLine = [m, u, v])
    (hget : strcaseEq m (("GET").toList) = true)
    (hmiss : (cache_find u s).2 = none)
    (hconn : origin.connectOk = true) :
    doit s requestLine hdrs origin =
      { clientOut := (streamLoop origin.lines).1,
        cacheProbed := true,
        originAttempted := true,
        serverOut := build_requesthdrs hdrs (parse_uri u).1 (parse_uri u).2.1,
        cacheAfter := cache_insert u (streamLoop origin.lines).2
            (((streamLoop origin.lines).2.length : Int)) (cache_find u s).1 } := by
  have hget' : strcaseEq m ([ 'G' , 'E' , 'T' ]) = true := by simpa using hget
  unfold doit
  rw [htok]
  simp only [streamLoop] at *
  simp [hget, hget', hmiss, hconn, streamLoop]
  intro hcontra
  have hle := streamLoop_snd_le origin.lines
  simp only [streamLoop] at hle
  exact absurd hcontra (not_lt.mpr hle)

theorem doit_hit_eq (s : CacheState) (requestLine m u v : List Char)
    (hdrs : List (List Char)) (origin : Origin) (blk : CacheBlock)
    (htok : tokenize requestLine = [m, u, v])
    (hget : strcaseEq m (("GET").toList) = true)
    (hhit : (cache_find u s).2 = some blk) :
    doit s requestLine hdrs origin =
      { clientOut := blk.content.take blk.content_size.toNat,
        cacheProbed := true, originAttempted := false, serverOut := [],
        cacheAfter := (cache_find u s).1 } := by
  have hget' : strcaseEq m ([ 'G' , 'E' , 'T' ]) = true := by simpa using hget
  unfold doit
  rw [htok]
  simp [hget, hget', hhit]

/-! ### Claim theorems: doit -/

/-- Claim C7 (confirmed): a request whose method token differs
case-insensitively from GET makes the handler write a response starting
with `HTTP/1.0 501 Not Implemented\r\n` and terminate without probing the
cache and without opening any origin connection. -/
theorem doit_non_get_501 (s : CacheState) (requestLine m : List Char)
    (toksRest : List (List Char)) (hdrs : List (List Char)) (origin : Origin)
    (htok : tokenize requestLine = m :: toksRest)
    (hne : strcaseEq m (("GET").toList) = false) :
    (doit s requestLine hdrs origin).clientOut.take http501head.length = http501head ∧
      (doit s requestLine hdrs origin).cacheProbed = false ∧
      (doit s requestLine hdrs origin).originAttempted = false := by
  rw [doit_501_eq s requestLine m toksRest hdrs origin htok hne]
  refine ⟨?_, rfl, rfl⟩
  have hline : ("HTTP/1.0 ").toList ++ (("501").toList) ++ [ ' ' ] ++ (("Not Implemented").toList)
      ++ ("\r\n").toList = http501head := by decide
  rw [← hline]
  exact clienterror_head_eq m (("501").toList) (("Not Implemented").toList)
    (("지원하지 않는 메소드입니다").toList)

/-- Witness for C7 at the concrete request `PUT http://x/ HTTP/1.0`. -/
theorem doit_non_get_501_witness :
    tokenize (("PUT http://x/ HTTP/1.0").toList) =
        (("PUT").toList) :: [(("http://x/").toList), (("HTTP/1.0").toList)] ∧
      strcaseEq (("PUT").toList) (("GET").toList) = false ∧
      (doit cache_init (("PUT http://x/ HTTP/1.0").toList) []
          { connectOk := true, lines := [] }).clientOut.take http501head.length = http501head ∧
      (doit cache_init (("PUT http://x/ HTTP/1.0").toList) []
          { connectOk := true, lines := [] }).cacheProbed = false ∧
      (doit cache_init (("PUT http://x/ HTTP/1.0").toList) []
          { connectOk := true, lines := [] }).originAttempted = false := by
  have h := doit_non_get_501 cache_init (("PUT http://x/ HTTP/1.0").toList) (("PUT").toList)
    [(("http://x/").toList), (("HTTP/1.0").toList)] [] { connectOk := true, lines := [] }
    (by decide) (by decide)
  exact ⟨by decide, by decide, h.1, h.2.1, h.2.2⟩

/-- Claim C1 (code_bug): on a cache miss whose origin response totals
strictly more than `MAX_OBJECT_SIZE` bytes, the handler does forward every
response byte to the client, but it does NOT skip cache admission: the
staging loop keeps `cache_size ≤ MAX_OBJECT_SIZE` by construction, so the
final `cache_size <= MAX_OBJECT_SIZE` test always passes and a truncated
prefix of the response is inserted -- afterwards `cache_find` on that uri
is a hit. -/
theorem doit_oversize_still_caches (s : CacheState) (requestLine u v : List Char)
    (hdrs : List (List Char)) (origin : Origin)
    (htok : tokenize requestLine = [(("GET").toList), u, v])
    (hmiss : (cache_find u s).2 = none)
    (hconn : origin.connectOk = true)
    (hbig : MAX_OBJECT_SIZE < (origin.lines.flatten.length : Int)) :
    (doit s requestLine hdrs origin).clientOut = origin.lines.flatten ∧
      ((cache_find u (doit s requestLine hdrs origin).cacheAfter).2).isSome = true := by
  rw [doit_miss_eq s requestLine (("GET").toList) u v hdrs origin htok (by decide) hmiss hconn]
  refine ⟨streamLoop_fst origin.lines, ?_⟩
  have hle := streamLoop_snd_le origin.lines
  rw [cache_find_after_insert _ u _ _ (by omega)]
  rfl

/-- Witness for C1: a 104000-byte response (13 lines of 8000 bytes) on an
empty cache; all bytes are forwarded and the uri is nonetheless admitted. -/
theorem doit_oversize_still_caches_witness :
    tokenize (("GET u HTTP/1.0").toList) =
        [(("GET").toList), (("u").toList), (("HTTP/1.0").toList)] ∧
      (cache_find (("u").toList) cache_init).2 = none ∧
      MAX_OBJECT_SIZE < (((List.replicate 13 (List.replicate 8000 'a')).flatten.length : Int)) ∧
      (doit cache_init (("GET u HTTP/1.0").toList) []
          { connectOk := true, lines := List.replicate 13 (List.replicate 8000 'a') }).clientOut =
        (List.replicate 13 (List.replicate 8000 'a')).flatten ∧
      ((cache_find (("u").toList)
          (doit cache_init (("GET u HTTP/1.0").toList) []
            { connectOk := true,
              lines := List.replicate 13 (List.replicate 8000 'a') }).cacheAfter).2).isSome =
        true := by
  have hbig : MAX_OBJECT_SIZE <
      (((List.replicate 13 (List.replicate 8000 'a')).flatten.length : Int)) := by
    rw [List.length_flatten, List.map_replicate, List.length_replicate, List.sum_replicate,
      smul_eq_mul]
    norm_num [MAX_OBJECT_SIZE]
  have h := doit_oversize_still_caches cache_init (("GET u HTTP/1.0").toList)
    (("u").toList) (("HTTP/1.0").toList) []
    { connectOk := true, lines := List.replicate 13 (List.replicate 8000 'a') }
    (by decide) (by decide) rfl hbig
  exact ⟨by decide, by decide, hbig, h.1, h.2⟩

/-- Claim C10 (confirmed): when the origin returns EOF before any bytes,
the handler admits a zero-length entry for the uri (a live head entry, so
`cache_find` hits), and a later identical request is answered from the
cache with zero body bytes and without contacting the origin. -/
theorem doit_empty_response_cached (s : CacheState) (requestLine u v : List Char)
    (hdrs hdrs2 : List (List Char)) (origin origin2 : Origin)
    (htok : tokenize requestLine = [(("GET").toList), u, v])
    (hmiss : (cache_find u s).2 = none)
    (hconn : origin.connectOk = true)
    (hempty : origin.lines = []) :
    (cache_find u (doit s requestLine hdrs origin).cacheAfter).2 =
        some { uri := u, content := [], content_size := 0 } ∧
      (doit (doit s requestLine hdrs origin).cacheAfter requestLine hdrs2 origin2).clientOut =
        [] ∧
      (doit (doit s requestLine hdrs origin).cacheAfter requestLine hdrs2
          origin2).originAttempted = false ∧
      (doit (doit s requestLine hdrs origin).cacheAfter requestLine hdrs2
          origin2).cacheProbed = true := by
  rw [doit_miss_eq s requestLine (("GET").toList) u v hdrs origin htok (by decide) hmiss hconn,
    hempty]
  have hfind : (cache_find u
      (cache_insert u (streamLoop []).2 (((streamLoop []).2.length : Int))
        (cache_find u s).1)).2 =
      some { uri := u, content := [], content_size := 0 } := by
    have h := cache_find_after_insert (cache_find u s).1 u (streamLoop []).2
      (((streamLoop []).2.length : Int)) (by decide)
    simpa [streamLoop, streamLoopAux] using h
  refine ⟨hfind, ?_, ?_, ?_⟩ <;>
      rw [doit_hit_eq _ requestLine (("GET").toList) u v hdrs2 origin2
        { uri := u, content := [], content_size := 0 } htok (by decide) hfind] <;>
    rfl

/-- Witness for C10 at a concrete input. -/
theorem doit_empty_response_cached_witness :
    tokenize (("GET u HTTP/1.0").toList) =
        [(("GET").toList), (("u").toList), (("HTTP/1.0").toList)] ∧
      (cache_find (("u").toList) cache_init).2 = none ∧
      (cache_find (("u").toList)
          (doit cache_init (("GET u HTTP/1.0").toList) []
            { connectOk := true, lines := [] }).cacheAfter).2 =
        some { uri := ("u").toList, content := [], content_size := 0 } ∧
      (doit (doit cache_init (("GET u HTTP/1.0").toList) []
            { connectOk := true, lines := [] }).cacheAfter
          (("GET u HTTP/1.0").toList) [] { connectOk := true, lines := [[ 'x' ]] }).clientOut =
        [] ∧
      (doit (doit cache_init (("GET u HTTP/1.0").toList) []
            { connectOk := true, lines := [] }).cacheAfter
          (("GET u HTTP/1.0").toList) []
          { connectOk := true, lines := [[ 'x' ]] }).originAttempted = false := by
  have h := doit_empty_response_cached cache_init (("GET u HTTP/1.0").toList)
    (("u").toList) (("HTTP/1.0").toList) [] [] { connectOk := true, lines := [] }
    { connectOk := true, lines := [[ 'x' ]] } (by decide) (by decide) rfl rfl
  exact ⟨by decide, by decide, h.1, h.2.1, h.2.2.1⟩
